import Mathlib

/-!
Verification development for the PowerPoint generator pipeline
(`app.py`): text normalization, catalog matching, stock-variant
grouping, placeholder substitution and image composition are given a
shallow embedding, and the specification's claims about them are
settled as theorems.

Modelling conventions.
Spreadsheet cells are `Option String`: `none` models a missing value
(pandas `NaN`), `some s` a string cell.  Python `str(x)` applied to a
missing cell yields the string "nan", which `cellStr` mirrors.
Python float arithmetic in the image-scaling code is modelled with
exact rationals; `int` truncation of the nonnegative products is
`Int.floor`.  Python string operations are modelled over `List Char`
(code points), matching CPython semantics for the character sets the
program manipulates (ASCII letters, digits, punctuation, whitespace,
and the non-breaking space).
-/

/-- The non-breaking space character, written ` ` in the source. -/
def nbspChar : Char := '\u00A0'

/-- Characters matched by the regular-expression class `\s` used in
`normalize_text` (whitespace, including the non-breaking space, which
counts as Unicode whitespace in Python). -/
def pyIsSpace (c : Char) : Bool :=
  c = ' ' || c = '\t' || c = '\n' || c = '\r' || c = '\x0b' || c = '\x0c' || c = nbspChar

/-- Python `str.lower` restricted to the ASCII range: uppercase ASCII
letters are shifted down by 32, all other characters are unchanged. -/
def pyToLower (c : Char) : Char :=
  if 65 ≤ c.toNat ∧ c.toNat ≤ 90 then Char.ofNat (c.toNat + 32) else c

/-- Python `s.lower()`, character by character. -/
def pyLower (s : String) : String := String.mk (s.data.map pyToLower)

/-- Function `normalize_text` from the source: replace the non-breaking space by a
regular space, delete every whitespace character (the regex
`re.sub(r"\s+", "", ...)`), then lowercase. -/
def normalize_text (s : String) : String :=
  String.mk
    ((((s.data.map fun c => if c = nbspChar then ' ' else c).filter
        fun c => !pyIsSpace c).map pyToLower))

/-- Function `normalize_col` from the source is literally `normalize_text`. -/
def normalize_col (s : String) : String := normalize_text s

/-- Containment of one character list in another, scanning left to right. -/
def listContainsSub (needle : List Char) : List Char → Bool
  | [] => needle.isEmpty
  | c :: cs => needle.isPrefixOf (c :: cs) || listContainsSub needle cs

/-- Python's substring test `sub in s`. -/
def pyContains (s sub : String) : Bool := listContainsSub sub.data s.data

/-- Python `str.strip(chars)`: remove the given characters from both ends. -/
def pyStripSet (cs : List Char) (s : String) : String :=
  String.mk (((s.data.dropWhile fun c => c ∈ cs).reverse.dropWhile fun c => c ∈ cs).reverse)

/-- Python `str.strip()` with no argument: strip whitespace from both ends. -/
def pyStrip (s : String) : String :=
  pyStripSet [' ', '\t', '\n', '\r', '\x0b', '\x0c', nbspChar] s

/-- Keep the first occurrence of every string, dropping later duplicates;
`seen` records the strings already emitted.  This is the order produced by
Python's `dict.fromkeys`. -/
def dedupFirstAux (seen : List String) : List String → List String
  | [] => []
  | x :: xs => if x ∈ seen then dedupFirstAux seen xs else x :: dedupFirstAux (x :: seen) xs

/-- Model of `list(dict.fromkeys(xs))`: deduplication preserving first-seen order. -/
def dedupFirst (xs : List String) : List String := dedupFirstAux [] xs

/-- Code-point lexicographic comparison of character lists, the order used
by Python's `<` and `sorted` on strings. -/
def lexLt : List Char → List Char → Bool
  | [], [] => false
  | [], _ :: _ => true
  | _ :: _, [] => false
  | a :: as, b :: bs => if a < b then true else if b < a then false else lexLt as bs

/-- The `≤` companion of `lexLt` on strings. -/
def strLe (a b : String) : Bool := !lexLt b.data a.data

/-- Insert a string into an already sorted list of strings. -/
def insortStr (x : String) : List String → List String
  | [] => [x]
  | y :: ys => if strLe x y then x :: y :: ys else y :: insortStr x ys

/-- Ascending sort by code-point order, Python's `sorted` on strings. -/
def sortStrs (l : List String) : List String := l.foldr insortStr []

/-- Splitting a character list on every occurrence of a non-empty
separator, scanning left to right; `acc` holds the current segment
reversed and `fuel` bounds the recursion (any fuel at least the length
of the remaining input gives the exact answer). -/
def splitChars (sep : List Char) : Nat → List Char → List Char → List (List Char)
  | _, [], acc => [acc.reverse]
  | 0, l, acc => [acc.reverse ++ l]
  | fuel + 1, c :: cs, acc =>
    if sep ≠ [] ∧ sep.isPrefixOf (c :: cs) then
      acc.reverse :: splitChars sep fuel ((c :: cs).drop sep.length) []
    else splitChars sep fuel cs (c :: acc)

/-- Python `s.split(sep)` for a non-empty separator. -/
def pySplit (s sep : String) : List String :=
  (splitChars sep.data s.data.length s.data []).map String.mk

/-- Parsing rule of `group_by_color_and_size`, per variant name: when the
name contains the separator " - ", split on every occurrence and take the
first segment (stripped) as the color and the last segment (stripped) as
the size; otherwise the whole stripped name is the color with empty size. -/
def parseVariant (name : String) : String × String :=
  if pyContains name " - " then
    (pyStrip ((pySplit name " - ").headD ""), pyStrip ((pySplit name " - ").getLastD ""))
  else (pyStrip name, "")

/-- Model of `set.add`: append a size unless it is already collected. -/
def addSize (sizes : List String) (s : String) : List String :=
  if s ∈ sizes then sizes else sizes ++ [s]

/-- One `groups.setdefault(color, set()); if size: groups[color].add(size)`
step on the association list of color groups (keys in first-seen order). -/
def addToGroups : List (String × List String) → String → String → List (String × List String)
  | [], color, size => [(color, if size = "" then [] else [size])]
  | g :: gs, color, size =>
    if g.1 = color then (g.1, if size = "" then g.2 else addSize g.2 size) :: gs
    else g :: addToGroups gs color size

/-- The `groups` dictionary built by the loop of `group_by_color_and_size`. -/
def buildGroups (variant_names : List String) : List (String × List String) :=
  variant_names.foldl (fun gs n => addToGroups gs (parseVariant n).1 (parseVariant n).2) []

/-- Rendering of one color group: `"color: size1, size2"` with the sizes
sorted, or just the color when no size was collected. -/
def renderLine (g : String × List String) : String :=
  if g.2 = [] then g.1 else g.1 ++ ": " ++ String.intercalate ", " (sortStrs g.2)

/-- Function `group_by_color_and_size` from the source: group variant names by
color, collect unique sizes, render one line per color and join the
sorted lines with newline. -/
def group_by_color_and_size (variant_names : List String) : String :=
  String.intercalate "\n" (sortStrs ((buildGroups variant_names).map renderLine))

/-- Spec-side description of the grouping (claim C5): the colors in
first-occurrence order. -/
def specColors (names : List String) : List String :=
  dedupFirst (names.map fun n => (parseVariant n).1)

/-- Spec-side description of the grouping (claim C5): the unique sizes
collected for one color, blanks excluded, in first-occurrence order. -/
def specSizes (names : List String) (c : String) : List String :=
  dedupFirst
    (((names.filter fun n => (parseVariant n).1 == c).map fun n => (parseVariant n).2).filter
      fun s => !(s == ""))

/-- Spec-side description of the grouping (claim C5): each color paired
with its collected sizes. -/
def specAssoc (names : List String) : List (String × List String) :=
  (specColors names).map fun c => (c, specSizes names c)

/-- The grouping output as the spec describes it: render each color's
line and join the sorted lines with newline. -/
def variantGrouperSpec (names : List String) : String :=
  String.intercalate "\n" (sortStrs ((specAssoc names).map renderLine))

/-- The fixed product table of `ProductConfigurator.__init__`:
(surface, core, legs) combinations mapped to the fixed leg colors. -/
def configurator_products : List ((String × String × String) × List String) :=
  [(("Black Linoleum", "Plywood", "Plywood"), ["Black", "Grey", "Sand", "White"]),
   (("Grey Linoleum", "Plywood", "Plywood"), ["Black", "Grey", "Sand", "White"]),
   (("Oak Lacquered Oak Veneer", "Plywood", "Plywood"), ["Black", "Grey", "Sand", "White"]),
   (("Oak Oiled Oak", "Oak Oiled Oak", "Oak Oiled Oak"), ["Black", "Grey", "Sand", "White"]),
   (("Sand Laminate", "Plywood", "Plywood"), ["Black", "Grey", "Sand", "White"]),
   (("Smoked Oak Oiled Oak", "Smoked Oak Oiled Oak", "Smoked Oak Oiled Oak"),
     ["Black", "Grey", "Sand", "White"]),
   (("White Laminate", "Plywood", "Plywood"), ["Black", "Grey", "Sand", "White"])]

/-- List `default_sizes` of the configurator. -/
def default_sizes : List String :=
  ["170 x 85 cm / 67 x 33.5\"", "225 x 90 cm / 88.5 x 35.5\"",
   "255 x 108 cm / 100.5 x 42.5\"", "295 x 108 cm / 116 x 42.5\""]

/-- The Sand-Laminate-specific size list of the configurator. -/
def sand_sizes : List String :=
  ["225 x 90 cm / 88.5 x 35.5\"", "255 x 108 cm / 100.5 x 42.5\"",
   "295 x 108 cm / 116 x 42.5\""]

/-- Model of `self.specific_sizes.get(surface, self.default_sizes)`. -/
def specific_sizes (surface : String) : List String :=
  if surface = "Sand Laminate" then sand_sizes else default_sizes

/-- Method `ProductConfigurator.get_options`: scan the fixed table in
declaration order and return the leg colors and sizes of the first entry
whose surface name occurs case-insensitively in the product name. -/
def get_options (product_name : String) : Option (List String × List String) :=
  match configurator_products.find? (fun p => pyContains (pyLower product_name) (pyLower p.1.1)) with
  | some p => some (p.2, specific_sizes p.1.1)
  | none => none

/-- The configurator summary string
`f"Benfarver: ...\nStørrelser: ..."` rendered by the stock resolvers. -/
def configuratorText (legColors sizeList : List String) : String :=
  "Benfarver: " ++ String.intercalate ", " legColors ++
    "\nStørrelser: " ++ String.intercalate ", " sizeList

/-- A catalog row: normalized column name to cell value.  `none` models a
missing (NaN) cell. -/
abbrev Row := List (String × Option String)

/-- Model of `row.get(key, "")` on a pandas row: the stored cell when the column
exists, the default empty string otherwise. -/
def rowGet (row : Row) (key : String) : Option String :=
  match row.find? (fun p => p.1 == key) with
  | some p => p.2
  | none => some ""

/-- Python `str(x)` on a cell: a missing value prints as "nan". -/
def cellStr : Option String → String
  | none => "nan"
  | some s => s

/-- Normalization applied to a cell (the source calls it through
`str`, so a missing value normalizes to "nan"). -/
def normCell (c : Option String) : String := normalize_text (cellStr c)

/-- The stock availability test `col.notna() & (col != "")`. -/
def nonBlank : Option String → Bool
  | none => false
  | some s => !(s == "")

/-- One row of the stock table, with its four required columns. -/
structure StockRow where
  productkey : Option String
  variantname : Option String
  rts : Option String
  mto : Option String
deriving DecidableEq

/-- The product display name read by the stock resolvers:
`str(mapping_row.get(normalize_col("[[Product name]]"), ""))` with
brackets written for braces. -/
def displayName (mapping_row : Row) : String :=
  cellStr (rowGet mapping_row (normalize_col "\x7b\x7bProduct name\x7d\x7d"))

/-- Common body of `process_stock_rts_alternative` and
`process_stock_mto_alternative`; `flag` selects the availability column
(rts or mto), the sole difference between the two source functions. -/
def process_stock_alternative (flag : StockRow → Option String) (mapping_row : Row)
    (stock_df : List StockRow) : String :=
  match rowGet mapping_row "productkey" with
  | none => ""
  | some product_key =>
    if product_key = "" then ""
    else
      let norm_product_key := normalize_text product_key
      let filtered := stock_df.filter fun r => normCell r.productkey == norm_product_key
      if filtered.isEmpty then ""
      else
        let filtered2 := filtered.filter fun r => nonBlank (flag r)
        if filtered2.isEmpty then ""
        else
          let variant_names := filtered2.filterMap fun r => r.variantname
          let unique_variant_names := dedupFirst variant_names
          let product_name := displayName mapping_row
          match get_options product_name with
          | some opts => configuratorText opts.1 opts.2
          | none => group_by_color_and_size unique_variant_names

/-- Function `process_stock_rts_alternative` from the source. -/
def process_stock_rts_alternative (mapping_row : Row) (stock_df : List StockRow) : String :=
  process_stock_alternative (fun r => r.rts) mapping_row stock_df

/-- Function `process_stock_mto_alternative` from the source. -/
def process_stock_mto_alternative (mapping_row : Row) (stock_df : List StockRow) : String :=
  process_stock_alternative (fun r => r.mto) mapping_row stock_df

/-- The exact-match test of `find_mapping_row`: the row's key field
normalizes to the normalized item code. -/
def exactHit (item_no mapping_prod_key : String) (row : Row) : Bool :=
  normCell (rowGet row mapping_prod_key) == normalize_text item_no

/-- Python `str.startswith`, over the underlying characters. -/
def pyStartsWith (s pre : String) : Bool := pre.data.isPrefixOf s.data

/-- The fallback test of `find_mapping_row`: the row's normalized key
field starts with the normalized substring of the item code before its
first hyphen. -/
def prefixHit (item_no mapping_prod_key : String) (row : Row) : Bool :=
  pyStartsWith (normCell (rowGet row mapping_prod_key))
    (normalize_text ((pySplit item_no "-").headD ""))

/-- Function `find_mapping_row` from the source: scan the catalog for the first
exact normalized match; only when none exists and the item code contains
a hyphen, scan again for the first prefix match on the part before the
first hyphen; otherwise no row. -/
def find_mapping_row (item_no : String) (mapping_df : List Row) (mapping_prod_key : String) :
    Option Row :=
  match mapping_df.find? (exactHit item_no mapping_prod_key) with
  | some row => some row
  | none =>
    if pyContains item_no "-" then mapping_df.find? (prefixHit item_no mapping_prod_key)
    else none

/-- Table `TEXT_PLACEHOLDERS_ORIG`: placeholder token to display label. -/
def TEXT_PLACEHOLDERS_ORIG : List (String × String) :=
  [("\x7b\x7bProduct name\x7d\x7d", "Product Name:"),
   ("\x7b\x7bProduct code\x7d\x7d", "Product Code:"),
   ("\x7b\x7bProduct country of origin\x7d\x7d", "Country of origin:"),
   ("\x7b\x7bProduct height\x7d\x7d", "Height:"),
   ("\x7b\x7bProduct width\x7d\x7d", "Width:"),
   ("\x7b\x7bProduct length\x7d\x7d", "Length:"),
   ("\x7b\x7bProduct depth\x7d\x7d", "Depth:"),
   ("\x7b\x7bProduct seat height\x7d\x7d", "Seat Height:"),
   ("\x7b\x7bProduct diameter\x7d\x7d", "Diameter:"),
   ("\x7b\x7bCertificateName\x7d\x7d", "Test & certificates for the product:"),
   ("\x7b\x7bProduct Consumption COM\x7d\x7d", "Consumption information for COM:")]

/-- List `IMAGE_PLACEHOLDERS_ORIG`, in declaration order. -/
def IMAGE_PLACEHOLDERS_ORIG : List String :=
  ["\x7b\x7bProduct Packshot1\x7d\x7d",
   "\x7b\x7bProduct Lifestyle1\x7d\x7d",
   "\x7b\x7bProduct Lifestyle2\x7d\x7d",
   "\x7b\x7bProduct Lifestyle3\x7d\x7d",
   "\x7b\x7bProduct Lifestyle4\x7d\x7d"]

/-- Constant `MAPPING_PRODUCT_CODE_KEY` of `main`: the normalized product-code
column name. -/
def MAPPING_PRODUCT_CODE_KEY : String := normalize_col "\x7b\x7bProduct code\x7d\x7d"

/-- The `placeholder_texts` dictionary `main` builds for an item with no
catalog match: the product-code placeholder carries the label and the
item code, every other label-table placeholder is empty, and the RTS/MTO
placeholders carry their fixed header lines. -/
def missingPlaceholderTexts (item_no : String) : List (String × String) :=
  (TEXT_PLACEHOLDERS_ORIG.map fun p =>
    if p.1 = "\x7b\x7bProduct code\x7d\x7d" then (p.1, p.2 ++ " " ++ item_no) else (p.1, ""))
  ++ [("\x7b\x7bProduct RTS\x7d\x7d", "Product in stock versions:\n\n"),
      ("\x7b\x7bProduct MTO\x7d\x7d", "Avilable for made to order:\n\n")]

/-- The `placeholder_texts` dictionary `main` builds for a matched row:
blank or missing cells render as the empty string, identity-like fields
as label-space-value, long-form fields as label-blank-line-value, the
rest as label-newline-value; the RTS and MTO placeholders carry their
headers followed by the stock resolver output. -/
def matchedPlaceholderTexts (row : Row) (stock : List StockRow) : List (String × String) :=
  (TEXT_PLACEHOLDERS_ORIG.map fun p =>
    match rowGet row (normalize_col p.1) with
    | none => (p.1, "")
    | some v =>
      if pyStrip v = "" then (p.1, "")
      else if p.1 = "\x7b\x7bProduct code\x7d\x7d" ∨ p.1 = "\x7b\x7bProduct name\x7d\x7d" ∨
          p.1 = "\x7b\x7bProduct country of origin\x7d\x7d" then (p.1, p.2 ++ " " ++ v)
      else if p.1 = "\x7b\x7bCertificateName\x7d\x7d" ∨
          p.1 = "\x7b\x7bProduct Consumption COM\x7d\x7d" then (p.1, p.2 ++ "\n\n" ++ v)
      else (p.1, p.2 ++ "\n" ++ v))
  ++ [("\x7b\x7bProduct RTS\x7d\x7d",
        "Product in stock versions:\n\n" ++ process_stock_rts_alternative row stock),
      ("\x7b\x7bProduct MTO\x7d\x7d",
        "Avilable for made to order:\n\n" ++ process_stock_mto_alternative row stock)]

/-- One iteration of the per-item loop in `main`: the text-placeholder
dictionary of the slide produced for the item, and whether the item was
recorded as missing. -/
def processItem (item_no : String) (mapping_df : List Row) (stock_df : List StockRow) :
    List (String × String) × Bool :=
  match find_mapping_row item_no mapping_df MAPPING_PRODUCT_CODE_KEY with
  | none => (missingPlaceholderTexts item_no, true)
  | some row => (matchedPlaceholderTexts row stock_df, false)

/-- The batch loop of `main` over the pasted item codes: one slide
placeholder set per item, and the accumulated missing-items list. -/
def runItems (items : List String) (mapping_df : List Row) (stock_df : List StockRow) :
    List (List (String × String)) × List String :=
  match items with
  | [] => ([], [])
  | it :: rest =>
    let p := processItem it mapping_df stock_df
    let r := runItems rest mapping_df stock_df
    (p.1 :: r.1, (if p.2 then [it] else []) ++ r.2)

/-- Value stored for a placeholder token in a placeholder dictionary. -/
def lookupPh (l : List (String × String)) (key : String) : Option String :=
  match l.find? (fun p => p.1 == key) with
  | some p => some p.2
  | none => none

/-- A decoded bitmap, reduced to its pixel dimensions. -/
structure Bitmap where
  width : Nat
  height : Nat
deriving DecidableEq

/-- A slide shape, reduced to the attributes the substitution passes
read and write. -/
structure Shape where
  has_text_frame : Bool
  text : String
  width : Nat
  height : Nat
  left : Int
  top : Int
deriving DecidableEq

/-- A picture inserted by `slide.shapes.add_picture`, anchored at the
host shape's position. -/
structure Picture where
  left : Int
  top : Int
  width : Int
  height : Int
deriving DecidableEq

/-- The picture dimensions computed in `replace_image_placeholders_parallel`:
`scale = min(target_width / original_width, target_height / original_height)`
and `int(original * scale)` for each axis, in exact rational arithmetic. -/
def scaledSize (original_width original_height target_width target_height : Nat) : Int × Int :=
  let scale : ℚ := min ((target_width : ℚ) / (original_width : ℚ))
    ((target_height : ℚ) / (original_height : ℚ))
  (Int.floor ((original_width : ℚ) * scale), Int.floor ((original_height : ℚ) * scale))

/-- The picture inserted for a resolved bitmap: anchored at the shape's
left/top with the scaled dimensions. -/
def mkPicture (shape : Shape) (bmp : Bitmap) : Picture :=
  ⟨shape.left, shape.top, (scaledSize bmp.width bmp.height shape.width shape.height).1,
    (scaledSize bmp.width bmp.height shape.width shape.height).2⟩

/-- The placeholder loop of `replace_image_placeholders_parallel` for one
shape: scan the fixed token list; at the first token whose normalized
form occurs in the shape's normalized text, insert a picture and clear
the text when the token's URL is non-empty and a bitmap was resolved,
and stop the scan (the `break`) whether or not a picture was inserted;
otherwise keep scanning. -/
def goImages (shape : Shape) (image_values : String → String) (results : String → Option Bitmap) :
    List String → Shape × List Picture
  | [] => (shape, [])
  | ph :: rest =>
    if pyContains (normalize_text shape.text) (normalize_text ph) then
      if image_values ph = "" then (shape, [])
      else
        match results ph with
        | some bmp => ({shape with text := ""}, [mkPicture shape bmp])
        | none => (shape, [])
    else goImages shape image_values results rest

/-- Function `replace_image_placeholders_parallel` restricted to one shape:
shapes without a text frame are untouched. -/
def processShapeImages (shape : Shape) (image_values : String → String)
    (results : String → Option Bitmap) : Shape × List Picture :=
  if shape.has_text_frame then goImages shape image_values results IMAGE_PLACEHOLDERS_ORIG
  else (shape, [])

/-- Model of `placeholder.strip(braces).strip()`: the bare placeholder name used to
build the substitution pattern. -/
def makeKey (placeholder : String) : String :=
  pyStrip (pyStripSet ['\x7b', '\x7d'] placeholder)

/-- Matching of the regular expression pattern
double-open-brace, optional whitespace, the literal key, optional
whitespace, double-close-brace at the head of the input; returns the
remaining input after the match.  The key produced by `makeKey` never
starts or ends with whitespace, for which this greedy scan is exactly
the regex semantics. -/
def matchTokenL (key : List Char) (l : List Char) : Option (List Char) :=
  match l with
  | '\x7b' :: '\x7b' :: rest =>
    let rest1 := rest.dropWhile pyIsSpace
    if key.isPrefixOf rest1 then
      match (rest1.drop key.length).dropWhile pyIsSpace with
      | '\x7d' :: '\x7d' :: r => some r
      | _ => none
    else none
  | _ => none

/-- Model of `re.sub` of the bracketed-token pattern: scan left to right, replace
every non-overlapping occurrence.  `fuel` bounds the recursion; every
step consumes at least one character, so fuel equal to the input length
gives the exact answer. -/
def substCharsGo (key repl : List Char) : Nat → List Char → List Char
  | _, [] => []
  | 0, l => l
  | fuel + 1, c :: cs =>
    match matchTokenL key (c :: cs) with
    | some rest => repl ++ substCharsGo key repl fuel rest
    | none => c :: substCharsGo key repl fuel cs

/-- One placeholder substitution on a paragraph's concatenated text. -/
def substToken (key repl s : String) : String :=
  String.mk (substCharsGo key.data repl.data s.data.length s.data)

/-- All placeholder substitutions of `replace_text_placeholders`, applied
in dictionary order to one logical string. -/
def applyAll (placeholder_values : List (String × String)) (s : String) : String :=
  placeholder_values.foldl (fun acc p => substToken (makeKey p.1) p.2 acc) s

/-- Function `replace_text_placeholders` restricted to one paragraph, a list of
run texts: concatenate the runs, apply every substitution, then write
the result into the first run and empty every other run.  A paragraph
with no runs is unchanged. -/
def replace_text_placeholders_para (runs : List String)
    (placeholder_values : List (String × String)) : List String :=
  match runs with
  | [] => []
  | r :: rest => applyAll placeholder_values (String.join (r :: rest)) :: rest.map fun _ => ""

/-- Number of non-empty runs in a paragraph. -/
def nonEmptyCount (runs : List String) : Nat := (runs.filter fun r => !(r == "")).length

theorem toNat_ofNat_valid (n : Nat) (h : Nat.isValidChar n) : (Char.ofNat n).toNat = n := by
  simp [Char.ofNat, h]
  rfl

theorem pyIsSpace_false_of_toNat (x : Char) (h32 : x.toNat ≠ 32) (h9 : x.toNat ≠ 9)
    (h10 : x.toNat ≠ 10) (h13 : x.toNat ≠ 13) (h11 : x.toNat ≠ 11) (h12 : x.toNat ≠ 12)
    (h160 : x.toNat ≠ 160) : pyIsSpace x = false := by
  simp only [pyIsSpace, nbspChar, Bool.or_eq_false_iff, decide_eq_false_iff_not]
  refine ⟨⟨⟨⟨⟨⟨?_, ?_⟩, ?_⟩, ?_⟩, ?_⟩, ?_⟩, ?_⟩ <;> intro hh <;>
    first
    | exact h32 (by rw [hh]; decide)
    | exact h9 (by rw [hh]; decide)
    | exact h10 (by rw [hh]; decide)
    | exact h13 (by rw [hh]; decide)
    | exact h11 (by rw [hh]; decide)
    | exact h12 (by rw [hh]; decide)
    | exact h160 (by rw [hh]; decide)

theorem pyToLower_spec (c : Char) :
    (65 ≤ c.toNat ∧ c.toNat ≤ 90 ∧ (pyToLower c).toNat = c.toNat + 32) ∨ pyToLower c = c := by
  unfold pyToLower
  split
  case isTrue h =>
    left
    refine ⟨h.1, h.2, toNat_ofNat_valid _ ?_⟩
    exact Or.inl (by omega)
  case isFalse h => right; rfl

theorem pyToLower_fixed_of_toNat (c : Char) (h : ¬(65 ≤ c.toNat ∧ c.toNat ≤ 90)) :
    pyToLower c = c := by
  unfold pyToLower
  exact if_neg h

theorem normalize_chars (s : String) :
    ∀ c ∈ (normalize_text s).data, pyIsSpace c = false ∧ c ≠ nbspChar ∧ pyToLower c = c := by
  intro c hc
  have hdata : (normalize_text s).data
      = (((s.data.map fun c => if c = nbspChar then ' ' else c).filter
          fun c => !pyIsSpace c).map pyToLower) := rfl
  rw [hdata] at hc
  obtain ⟨d, hd, hdc⟩ := List.mem_map.mp hc
  have hdf : pyIsSpace d = false := by
    have := (List.mem_filter.mp hd).2
    simpa using this
  rcases pyToLower_spec d with ⟨h65, h90, htn⟩ | hfix
  · -- d is an uppercase ASCII letter, c its lowercase form
    subst hdc
    have hc97 : 97 ≤ (pyToLower d).toNat := by omega
    have hc122 : (pyToLower d).toNat ≤ 122 := by omega
    refine ⟨?_, ?_, ?_⟩
    · exact pyIsSpace_false_of_toNat _ (by omega) (by omega) (by omega) (by omega)
        (by omega) (by omega) (by omega)
    · intro hn
      have : (pyToLower d).toNat = 160 := by rw [hn]; rfl
      omega
    · exact pyToLower_fixed_of_toNat _ (by omega)
  · subst hdc
    rw [hfix]
    refine ⟨hdf, ?_, hfix⟩
    intro hn
    rw [hn] at hdf
    simp [pyIsSpace] at hdf

theorem map_fix_eq_self {α : Type} (f : α → α) :
    ∀ (l : List α), (∀ a ∈ l, f a = a) → l.map f = l := by
  intro l
  induction l with
  | nil => intro _; rfl
  | cons x xs ih =>
    intro h
    simp only [List.map_cons]
    rw [h x (by simp), ih fun a ha => h a (by simp [ha])]

theorem normalize_fixed (t : String)
    (h : ∀ c ∈ t.data, pyIsSpace c = false ∧ c ≠ nbspChar ∧ pyToLower c = c) :
    normalize_text t = t := by
  have h1 : (t.data.map fun c => if c = nbspChar then ' ' else c) = t.data :=
    map_fix_eq_self _ _ fun a ha => if_neg (h a ha).2.1
  have h2 : (t.data.filter fun c => !pyIsSpace c) = t.data :=
    List.filter_eq_self.mpr fun a ha => by simp [(h a ha).1]
  have h3 : t.data.map pyToLower = t.data :=
    map_fix_eq_self _ _ fun a ha => (h a ha).2.2
  show String.mk (((t.data.map fun c => if c = nbspChar then ' ' else c).filter
      fun c => !pyIsSpace c).map pyToLower) = t
  rw [h1, h2, h3]

/-- C8: `normalize_text` is idempotent — a second application changes
nothing, because its result contains no whitespace and no uppercase
ASCII letters. -/
theorem claim_C8 (s : String) : normalize_text (normalize_text s) = normalize_text s :=
  normalize_fixed (normalize_text s) (normalize_chars s)

theorem find?_eq_of_exists {α : Type} (p : α → Bool) (l : List α) (h : ∃ x ∈ l, p x = true) :
    ∃ r, l.find? p = some r := by
  have hs : (l.find? p).isSome := List.find?_isSome.mpr h
  exact Option.isSome_iff_exists.mp hs

/-- C3: the two-phase matching algorithm of `find_mapping_row`: an exact
normalized match anywhere wins and the first one in row order is
returned; only with no exact match and a hyphen in the item code does
the prefix fallback return the first prefix match; otherwise no row.
In particular "03194-A" with no exact match finds the row keyed
"03194". -/
theorem claim_C3 :
    (∀ (item : String) (m : List Row) (k : String),
      (∃ r ∈ m, exactHit item k r = true) →
      find_mapping_row item m k = m.find? (exactHit item k)) ∧
    (∀ (item : String) (m : List Row) (k : String),
      (∀ r ∈ m, exactHit item k r = false) → pyContains item "-" = true →
      find_mapping_row item m k = m.find? (prefixHit item k)) ∧
    (∀ (item : String) (m : List Row) (k : String),
      (∀ r ∈ m, exactHit item k r = false) → pyContains item "-" = false →
      find_mapping_row item m k = none) ∧
    find_mapping_row "03194-A" [[("\x7b\x7bproductcode\x7d\x7d", some "03194")]]
      MAPPING_PRODUCT_CODE_KEY = some [("\x7b\x7bproductcode\x7d\x7d", some "03194")] := by
  refine ⟨?_, ?_, ?_, by decide⟩
  · intro item m k h
    obtain ⟨r, hr⟩ := find?_eq_of_exists _ _ h
    unfold find_mapping_row
    rw [hr]
  · intro item m k h hhy
    have hnone : m.find? (exactHit item k) = none :=
      List.find?_eq_none.mpr fun x hx => by simp [h x hx]
    unfold find_mapping_row
    rw [hnone, if_pos hhy]
  · intro item m k h hhy
    have hnone : m.find? (exactHit item k) = none :=
      List.find?_eq_none.mpr fun x hx => by simp [h x hx]
    unfold find_mapping_row
    rw [hnone, if_neg (by simp [hhy])]

theorem claim_C3_witness :
    find_mapping_row "99999" [[("\x7b\x7bproductcode\x7d\x7d", some "03194")]]
      MAPPING_PRODUCT_CODE_KEY = none :=
  claim_C3.2.2.1 "99999" [[("\x7b\x7bproductcode\x7d\x7d", some "03194")]]
    MAPPING_PRODUCT_CODE_KEY (by decide) (by decide)

theorem psa_key_blank (flag : StockRow → Option String) (row : Row) (stock : List StockRow)
    (h : rowGet row "productkey" = none ∨ rowGet row "productkey" = some "") :
    process_stock_alternative flag row stock = "" := by
  unfold process_stock_alternative
  rcases h with h | h
  · rw [h]
  · rw [h]; simp

theorem psa_no_key_match (flag : StockRow → Option String) (row : Row) (stock : List StockRow)
    (k : String) (h1 : rowGet row "productkey" = some k) (h2 : k ≠ "")
    (h3 : ∀ sr ∈ stock, (normCell sr.productkey == normalize_text k) = false) :
    process_stock_alternative flag row stock = "" := by
  simp only [process_stock_alternative, h1, if_neg h2]
  have hf : stock.filter (fun r => normCell r.productkey == normalize_text k) = [] :=
    List.filter_eq_nil_iff.mpr fun a ha => by simp [h3 a ha]
  simp [hf]

theorem psa_no_flag (flag : StockRow → Option String) (row : Row) (stock : List StockRow)
    (k : String) (h1 : rowGet row "productkey" = some k) (h2 : k ≠ "")
    (h3 : ∀ sr ∈ stock, (normCell sr.productkey == normalize_text k) = true →
      nonBlank (flag sr) = false) :
    process_stock_alternative flag row stock = "" := by
  simp only [process_stock_alternative, h1, if_neg h2]
  by_cases hf : (stock.filter fun r => normCell r.productkey == normalize_text k).isEmpty
  · simp [hf]
  · have h4 : ((stock.filter fun r => normCell r.productkey == normalize_text k).filter
        fun r => nonBlank (flag r)) = [] :=
      List.filter_eq_nil_iff.mpr fun r hr => by
        have hm := List.mem_filter.mp hr
        simp [h3 r hm.1 hm.2]
    simp [hf, h4]

theorem psa_main (flag : StockRow → Option String) (row : Row) (stock : List StockRow)
    (k : String) (h1 : rowGet row "productkey" = some k) (h2 : k ≠ "")
    (h3 : ((stock.filter fun r => normCell r.productkey == normalize_text k).filter
      fun r => nonBlank (flag r)) ≠ []) :
    process_stock_alternative flag row stock =
      (match get_options (displayName row) with
       | some opts => configuratorText opts.1 opts.2
       | none => group_by_color_and_size (dedupFirst
           (((stock.filter fun r => normCell r.productkey == normalize_text k).filter
               fun r => nonBlank (flag r)).filterMap fun r => r.variantname))) := by
  have hf : (stock.filter fun r => normCell r.productkey == normalize_text k).isEmpty = false := by
    rw [← Bool.not_eq_true]
    intro hemp
    exact h3 (by rw [List.isEmpty_iff.mp hemp]; rfl)
  have hf2 : ((stock.filter fun r => normCell r.productkey == normalize_text k).filter
      fun r => nonBlank (flag r)).isEmpty = false := by
    rw [← Bool.not_eq_true]
    intro hemp
    exact h3 (List.isEmpty_iff.mp hemp)
  simp only [process_stock_alternative, h1, if_neg h2, hf, hf2, Bool.false_eq_true, if_false]

theorem dedupFirstAux_mem (x : String) :
    ∀ (l seen : List String), x ∈ dedupFirstAux seen l ↔ x ∈ l ∧ x ∉ seen := by
  intro l
  induction l with
  | nil => intro seen; simp [dedupFirstAux]
  | cons y ys ih =>
    intro seen
    unfold dedupFirstAux
    by_cases hy : y ∈ seen
    · rw [if_pos hy, ih seen]
      constructor
      · rintro ⟨hx, hns⟩; exact ⟨by simp [hx], hns⟩
      · rintro ⟨hx, hns⟩
        rcases List.mem_cons.mp hx with rfl | hx
        · exact absurd hy hns
        · exact ⟨hx, hns⟩
    · rw [if_neg hy]
      constructor
      · intro hx
        rcases List.mem_cons.mp hx with rfl | hx
        · exact ⟨by simp, hy⟩
        · have := (ih (y :: seen)).mp hx
          exact ⟨by simp [this.1], fun hs => this.2 (by simp [hs])⟩
      · rintro ⟨hx, hns⟩
        rcases List.mem_cons.mp hx with rfl | hx
        · exact List.mem_cons_self _ _
        · by_cases hxy : x = y
          · subst hxy; exact List.mem_cons_self _ _
          · exact List.mem_cons_of_mem _ ((ih (y :: seen)).mpr ⟨hx, by simp [hxy, hns]⟩)

theorem dedupFirstAux_sublist : ∀ (l seen : List String), List.Sublist (dedupFirstAux seen l) l := by
  intro l
  induction l with
  | nil => intro seen; simp [dedupFirstAux]
  | cons y ys ih =>
    intro seen
    unfold dedupFirstAux
    by_cases hy : y ∈ seen
    · rw [if_pos hy]
      exact (ih seen).trans (List.sublist_cons_self y ys)
    · rw [if_neg hy]
      exact List.Sublist.cons₂ y (ih (y :: seen))

theorem dedupFirstAux_nodup : ∀ (l seen : List String), (dedupFirstAux seen l).Nodup := by
  intro l
  induction l with
  | nil => intro seen; simp [dedupFirstAux]
  | cons y ys ih =>
    intro seen
    unfold dedupFirstAux
    by_cases hy : y ∈ seen
    · rw [if_pos hy]; exact ih seen
    · rw [if_neg hy]
      rw [List.nodup_cons]
      refine ⟨fun hmem => ?_, ih (y :: seen)⟩
      exact ((dedupFirstAux_mem y ys (y :: seen)).mp hmem).2 (by simp)

/-- C4 counterexample: an empty-string variant name is not dropped by
`dropna`, so it survives into the grouping and produces an extra
(empty) output line — resolveRTS yields a leading newline where the
claim's "blanks dropped" reading predicts none. -/
theorem claim_C4_counterexample :
    process_stock_rts_alternative [("productkey", some "k")]
      [⟨some "k", some "", some "x", none⟩, ⟨some "k", some "Black - Small", some "x", none⟩]
      = "\nBlack: Small" ∧
    group_by_color_and_size (dedupFirst ["Black - Small"]) = "Black: Small" ∧
    ("\nBlack: Small" : String) ≠ "Black: Small" :=
  ⟨by decide, by decide, by decide⟩

/-- C4 (amended): resolveRTS and resolveMTO return the empty string when
the product key is missing or blank, when no stock row's normalized key
matches, or when no matching row has the availability flag non-blank;
otherwise the missing (NaN) variant names are dropped, the remaining
names (including empty strings) are deduplicated preserving first-seen
order, and the result feeds the configurator override or the grouping. -/
theorem claim_C4_amended :
    (∀ (row : Row) (stock : List StockRow),
      (rowGet row "productkey" = none ∨ rowGet row "productkey" = some "") →
      process_stock_rts_alternative row stock = "" ∧
        process_stock_mto_alternative row stock = "") ∧
    (∀ (row : Row) (stock : List StockRow) (k : String),
      rowGet row "productkey" = some k → k ≠ "" →
      (∀ sr ∈ stock, (normCell sr.productkey == normalize_text k) = false) →
      process_stock_rts_alternative row stock = "" ∧
        process_stock_mto_alternative row stock = "") ∧
    (∀ (row : Row) (stock : List StockRow) (k : String),
      rowGet row "productkey" = some k → k ≠ "" →
      (∀ sr ∈ stock, (normCell sr.productkey == normalize_text k) = true →
        nonBlank sr.rts = false) →
      process_stock_rts_alternative row stock = "") ∧
    (∀ (row : Row) (stock : List StockRow) (k : String),
      rowGet row "productkey" = some k → k ≠ "" →
      (∀ sr ∈ stock, (normCell sr.productkey == normalize_text k) = true →
        nonBlank sr.mto = false) →
      process_stock_mto_alternative row stock = "") ∧
    (∀ (row : Row) (stock : List StockRow) (k : String),
      rowGet row "productkey" = some k → k ≠ "" →
      ((stock.filter fun r => normCell r.productkey == normalize_text k).filter
        fun r => nonBlank r.rts) ≠ [] →
      process_stock_rts_alternative row stock =
        (match get_options (displayName row) with
         | some opts => configuratorText opts.1 opts.2
         | none => group_by_color_and_size (dedupFirst
             (((stock.filter fun r => normCell r.productkey == normalize_text k).filter
                 fun r => nonBlank r.rts).filterMap fun r => r.variantname)))) ∧
    (∀ xs : List String, (dedupFirst xs).Nodup ∧ List.Sublist (dedupFirst xs) xs ∧
      ∀ x, x ∈ dedupFirst xs ↔ x ∈ xs) := by
  refine ⟨?_, ?_, ?_, ?_, ?_, ?_⟩
  · intro row stock h
    exact ⟨psa_key_blank _ row stock h, psa_key_blank _ row stock h⟩
  · intro row stock k h1 h2 h3
    exact ⟨psa_no_key_match _ row stock k h1 h2 h3, psa_no_key_match _ row stock k h1 h2 h3⟩
  · intro row stock k h1 h2 h3
    exact psa_no_flag _ row stock k h1 h2 h3
  · intro row stock k h1 h2 h3
    exact psa_no_flag _ row stock k h1 h2 h3
  · intro row stock k h1 h2 h3
    exact psa_main _ row stock k h1 h2 h3
  · intro xs
    refine ⟨dedupFirstAux_nodup xs [], dedupFirstAux_sublist xs [], fun x => ?_⟩
    rw [dedupFirst, dedupFirstAux_mem x xs []]
    simp

theorem claim_C4_witness :
    process_stock_rts_alternative [("productkey", some "")] [] = "" :=
  (claim_C4_amended.1 [("productkey", some "")] [] (Or.inr (by decide))).1

theorem psa_configurator (flag : StockRow → Option String) (row : Row) (stock : List StockRow)
    (k : String) (opts : List String × List String)
    (h1 : rowGet row "productkey" = some k) (h2 : k ≠ "")
    (hopt : get_options (displayName row) = some opts)
    (hex : ∃ sr ∈ stock, (normCell sr.productkey == normalize_text k) = true ∧
      nonBlank (flag sr) = true) :
    process_stock_alternative flag row stock = configuratorText opts.1 opts.2 := by
  obtain ⟨sr, hmem, hkey, hflag⟩ := hex
  have hne : ((stock.filter fun r => normCell r.productkey == normalize_text k).filter
      fun r => nonBlank (flag r)) ≠ [] := by
    have hin : sr ∈ (stock.filter fun r => normCell r.productkey == normalize_text k).filter
        fun r => nonBlank (flag r) :=
      List.mem_filter.mpr ⟨List.mem_filter.mpr ⟨hmem, hkey⟩, hflag⟩
    exact List.ne_nil_of_mem hin
  rw [psa_main flag row stock k h1 h2 hne, hopt]

theorem get_options_sand (name : String)
    (h1 : pyContains (pyLower name) "sand laminate" = true)
    (h2 : pyContains (pyLower name) "black linoleum" = false)
    (h3 : pyContains (pyLower name) "grey linoleum" = false)
    (h4 : pyContains (pyLower name) "oak lacquered oak veneer" = false)
    (h5 : pyContains (pyLower name) "oak oiled oak" = false) :
    get_options name = some (["Black", "Grey", "Sand", "White"], sand_sizes) := by
  have c1 : pyContains (pyLower name) (pyLower "Black Linoleum") = false := by
    rw [show pyLower "Black Linoleum" = "black linoleum" from by decide]; exact h2
  have c2 : pyContains (pyLower name) (pyLower "Grey Linoleum") = false := by
    rw [show pyLower "Grey Linoleum" = "grey linoleum" from by decide]; exact h3
  have c3 : pyContains (pyLower name) (pyLower "Oak Lacquered Oak Veneer") = false := by
    rw [show pyLower "Oak Lacquered Oak Veneer" = "oak lacquered oak veneer" from by decide]
    exact h4
  have c4 : pyContains (pyLower name) (pyLower "Oak Oiled Oak") = false := by
    rw [show pyLower "Oak Oiled Oak" = "oak oiled oak" from by decide]; exact h5
  have c5 : pyContains (pyLower name) (pyLower "Sand Laminate") = true := by
    rw [show pyLower "Sand Laminate" = "sand laminate" from by decide]; exact h1
  simp only [get_options, configurator_products, List.find?, c1, c2, c3, c4, c5]
  simp [specific_sizes]

/-- C1 counterexample: for a catalog row whose display name contains
"Sand Laminate" but with an empty stock table, resolveRTS returns the
empty string, not the fixed configurator summary — the empty-stock early
returns run before the configurator override is consulted. -/
theorem claim_C1_counterexample :
    process_stock_rts_alternative
      [("productkey", some "1"), ("\x7b\x7bproductname\x7d\x7d", some "Sand Laminate Table")]
      [] = "" ∧
    process_stock_mto_alternative
      [("productkey", some "1"), ("\x7b\x7bproductname\x7d\x7d", some "Sand Laminate Table")]
      [] = "" ∧
    configuratorText ["Black", "Grey", "Sand", "White"] sand_sizes ≠ "" :=
  ⟨by decide, by decide, by decide⟩

/-- C1 (amended): for a catalog row whose display name contains
"Sand Laminate" case-insensitively and none of the configurator surfaces
declared before it, and whose product key is non-blank, resolveRTS and
resolveMTO return the fixed summary (leg colors Black, Grey, Sand, White
and the Sand-Laminate three-entry size list) regardless of the variant
names — provided at least one stock row matches the product key with the
respective availability flag non-blank; otherwise the early returns
yield the empty string. -/
theorem claim_C1_amended (row : Row) (stock : List StockRow) (k : String)
    (hk : rowGet row "productkey" = some k) (hk0 : k ≠ "")
    (hname : pyContains (pyLower (displayName row)) "sand laminate" = true)
    (hn2 : pyContains (pyLower (displayName row)) "black linoleum" = false)
    (hn3 : pyContains (pyLower (displayName row)) "grey linoleum" = false)
    (hn4 : pyContains (pyLower (displayName row)) "oak lacquered oak veneer" = false)
    (hn5 : pyContains (pyLower (displayName row)) "oak oiled oak" = false)
    (hrts : ∃ sr ∈ stock, (normCell sr.productkey == normalize_text k) = true ∧
      nonBlank sr.rts = true)
    (hmto : ∃ sr ∈ stock, (normCell sr.productkey == normalize_text k) = true ∧
      nonBlank sr.mto = true) :
    process_stock_rts_alternative row stock
      = configuratorText ["Black", "Grey", "Sand", "White"] sand_sizes ∧
    process_stock_mto_alternative row stock
      = configuratorText ["Black", "Grey", "Sand", "White"] sand_sizes := by
  have hopt := get_options_sand (displayName row) hname hn2 hn3 hn4 hn5
  exact ⟨psa_configurator _ row stock k _ hk hk0 hopt hrts,
    psa_configurator _ row stock k _ hk hk0 hopt hmto⟩

theorem claim_C1_witness :
    process_stock_rts_alternative
      [("productkey", some "1"), ("\x7b\x7bproductname\x7d\x7d", some "Sand Laminate Table")]
      [⟨some "1", some "Blue - Huge", some "x", some "y"⟩]
      = configuratorText ["Black", "Grey", "Sand", "White"] sand_sizes :=
  (claim_C1_amended
    [("productkey", some "1"), ("\x7b\x7bproductname\x7d\x7d", some "Sand Laminate Table")]
    [⟨some "1", some "Blue - Huge", some "x", some "y"⟩] "1"
    (by decide) (by decide) (by decide) (by decide) (by decide) (by decide) (by decide)
    ⟨⟨some "1", some "Blue - Huge", some "x", some "y"⟩, by decide, by decide, by decide⟩
    ⟨⟨some "1", some "Blue - Huge", some "x", some "y"⟩, by decide, by decide, by decide⟩).1

theorem dedupFirstAux_append_singleton (a : String) :
    ∀ (l seen : List String), dedupFirstAux seen (l ++ [a])
      = dedupFirstAux seen l ++ (if a ∈ seen ∨ a ∈ l then [] else [a]) := by
  intro l
  induction l with
  | nil =>
    intro seen
    by_cases h : a ∈ seen
    · simp [dedupFirstAux, h]
    · simp [dedupFirstAux, h]
  | cons x xs ih =>
    intro seen
    simp only [List.cons_append, dedupFirstAux]
    by_cases hx : x ∈ seen
    · rw [if_pos hx, if_pos hx, show xs.append [a] = xs ++ [a] from rfl, ih seen]
      have hiff : (a ∈ seen ∨ a ∈ x :: xs) ↔ (a ∈ seen ∨ a ∈ xs) := by
        constructor
        · rintro (h | h)
          · exact Or.inl h
          · rcases List.mem_cons.mp h with rfl | h
            · exact Or.inl hx
            · exact Or.inr h
        · rintro (h | h)
          · exact Or.inl h
          · exact Or.inr (List.mem_cons_of_mem _ h)
      simp only [hiff]
    · rw [if_neg hx, if_neg hx, show xs.append [a] = xs ++ [a] from rfl, ih (x :: seen),
        List.cons_append]
      have hiff : (a ∈ x :: seen ∨ a ∈ xs) ↔ (a ∈ seen ∨ a ∈ x :: xs) := by
        simp only [List.mem_cons]
        tauto
      simp only [hiff]

theorem dedupFirst_append_singleton (l : List String) (a : String) :
    dedupFirst (l ++ [a]) = dedupFirst l ++ (if a ∈ l then [] else [a]) := by
  rw [dedupFirst, dedupFirst, dedupFirstAux_append_singleton]
  simp

theorem mem_dedupFirst (x : String) (l : List String) : x ∈ dedupFirst l ↔ x ∈ l := by
  rw [dedupFirst, dedupFirstAux_mem]
  simp

theorem addToGroups_map_mem (sz : String → List String) (c s : String) :
    ∀ (colors : List String), c ∈ colors → colors.Nodup →
      addToGroups (colors.map fun d => (d, sz d)) c s
        = colors.map fun d =>
            (d, if d = c then (if s = "" then sz c else addSize (sz c) s) else sz d) := by
  intro colors
  induction colors with
  | nil => intro h; exact absurd h (by simp)
  | cons d rest ih =>
    intro hmem hnd
    simp only [List.map_cons, addToGroups]
    by_cases hdc : d = c
    · subst hdc
      rw [if_pos rfl, if_pos rfl]
      have hnotin : d ∉ rest := (List.nodup_cons.mp hnd).1
      congr 1
      apply List.map_congr_left
      intro e he
      have : e ≠ d := fun hed => hnotin (hed ▸ he)
      rw [if_neg this]
    · rw [if_neg hdc, if_neg hdc]
      have hmem' : c ∈ rest := by
        rcases List.mem_cons.mp hmem with rfl | h
        · exact absurd rfl hdc
        · exact h
      rw [ih hmem' (List.nodup_cons.mp hnd).2]

theorem addToGroups_map_not_mem (sz : String → List String) (c s : String) :
    ∀ (colors : List String), c ∉ colors →
      addToGroups (colors.map fun d => (d, sz d)) c s
        = (colors.map fun d => (d, sz d)) ++ [(c, if s = "" then [] else [s])] := by
  intro colors
  induction colors with
  | nil => intro _; rfl
  | cons d rest ih =>
    intro hmem
    simp only [List.map_cons, addToGroups, List.cons_append]
    have hdc : d ≠ c := fun h => hmem (by simp [h])
    rw [if_neg (fun h => hdc h), ih (fun h => hmem (by simp [h]))]

theorem specSizes_append_singleton (names : List String) (n : String) (c : String) :
    specSizes (names ++ [n]) c =
      if (parseVariant n).1 = c then
        (if (parseVariant n).2 = "" then specSizes names c
         else addSize (specSizes names c) (parseVariant n).2)
      else specSizes names c := by
  unfold specSizes
  rw [List.filter_append]
  by_cases hc : (parseVariant n).1 = c
  · rw [if_pos hc]
    have hb : ((parseVariant n).1 == c) = true := by simp [hc]
    have hfil : ([n].filter fun m => (parseVariant m).1 == c) = [n] := by
      simp [List.filter, hb]
    rw [hfil, List.map_append, List.filter_append]
    by_cases hs : (parseVariant n).2 = ""
    · have hb2 : (!((parseVariant n).2 == "")) = false := by simp [hs]
      have : (([n].map fun m => (parseVariant m).2).filter fun s => !(s == "")) = [] := by
        simp [List.filter, hb2]
      rw [this, List.append_nil, if_pos hs]
    · have hb2 : (!((parseVariant n).2 == "")) = true := by simp [hs]
      have : (([n].map fun m => (parseVariant m).2).filter fun s => !(s == ""))
          = [(parseVariant n).2] := by
        simp [List.filter, hb2]
      rw [this, if_neg hs, dedupFirst_append_singleton]
      rw [addSize]
      by_cases hmem : (parseVariant n).2
          ∈ ((names.filter fun m => (parseVariant m).1 == c).map
              fun m => (parseVariant m).2).filter fun s => !(s == "")
      · rw [if_pos hmem, if_pos ((mem_dedupFirst _ _).mpr hmem)]
        simp
      · rw [if_neg hmem, if_neg (fun h => hmem ((mem_dedupFirst _ _).mp h))]
  · rw [if_neg hc]
    have hb : ((parseVariant n).1 == c) = false := by simp [hc]
    have hfil : ([n].filter fun m => (parseVariant m).1 == c) = [] := by
      simp [List.filter, hb]
    rw [hfil, List.append_nil]

theorem specColors_append_singleton (names : List String) (n : String) :
    specColors (names ++ [n]) = specColors names ++
      (if (parseVariant n).1 ∈ names.map (fun m => (parseVariant m).1) then []
       else [(parseVariant n).1]) := by
  unfold specColors
  rw [List.map_append]
  exact dedupFirst_append_singleton _ _

theorem specSizes_empty_of_not_mem (names : List String) (c : String)
    (h : c ∉ names.map fun m => (parseVariant m).1) : specSizes names c = [] := by
  unfold specSizes
  have hfil : (names.filter fun m => (parseVariant m).1 == c) = [] := by
    rw [List.filter_eq_nil_iff]
    intro m hm
    simp only [beq_iff_eq]
    intro he
    exact h (List.mem_map.mpr ⟨m, hm, he⟩)
  rw [hfil]
  rfl

theorem buildGroups_eq_specAssoc : ∀ (names : List String), buildGroups names = specAssoc names := by
  intro names
  induction names using List.reverseRecOn with
  | nil => rfl
  | append_singleton ns n ih =>
    have hstep : buildGroups (ns ++ [n])
        = addToGroups (buildGroups ns) (parseVariant n).1 (parseVariant n).2 := by
      simp [buildGroups, List.foldl_append]
    rw [hstep, ih, specAssoc]
    by_cases hc : (parseVariant n).1 ∈ ns.map fun m => (parseVariant m).1
    · have hcs : (parseVariant n).1 ∈ specColors ns := by
        rw [specColors, mem_dedupFirst]
        exact hc
      have hnd : (specColors ns).Nodup := dedupFirstAux_nodup _ []
      rw [specAssoc, addToGroups_map_mem _ _ _ _ hcs hnd]
      rw [specColors_append_singleton, if_pos hc, List.append_nil]
      apply List.map_congr_left
      intro d _
      rw [specSizes_append_singleton]
      by_cases hdc : (parseVariant n).1 = d
      · rw [if_pos hdc, if_pos hdc.symm, hdc]
      · rw [if_neg hdc, if_neg fun h => hdc h.symm]
    · have hcs : (parseVariant n).1 ∉ specColors ns := by
        rw [specColors, mem_dedupFirst]
        exact hc
      rw [specAssoc, addToGroups_map_not_mem _ _ _ _ hcs]
      rw [specColors_append_singleton, if_neg hc, List.map_append]
      congr 1
      · apply List.map_congr_left
        intro d hd
        rw [specSizes_append_singleton]
        have hdc : (parseVariant n).1 ≠ d := fun h => hcs (h ▸ hd)
        rw [if_neg hdc]
      · simp only [List.map_cons, List.map_nil]
        rw [specSizes_append_singleton, if_pos rfl,
          specSizes_empty_of_not_mem ns _ hc]
        by_cases hs : (parseVariant n).2 = ""
        · simp [hs]
        · simp [hs, addSize]

/-- C5: `group_by_color_and_size` parses each variant name into first
segment (color) and last segment (size), aggregates unique sizes per
color, renders one sorted line per color and joins the sorted lines —
exactly the spec-side description `variantGrouperSpec` — and on the
spec's example input produces the stated output. -/
theorem claim_C5 :
    group_by_color_and_size ["Black - Frame - Small", "Black - Frame - Large",
        "White - Frame - Small"] = "Black: Large, Small\nWhite: Small" ∧
    ∀ (variant_names : List String),
      group_by_color_and_size variant_names = variantGrouperSpec variant_names := by
  refine ⟨by decide, fun variant_names => ?_⟩
  rw [group_by_color_and_size, variantGrouperSpec, buildGroups_eq_specAssoc]

theorem runItems_missing (mapping_df : List Row) (stock_df : List StockRow) :
    ∀ (items : List String),
      (runItems items mapping_df stock_df).2
        = items.filter fun it => (find_mapping_row it mapping_df MAPPING_PRODUCT_CODE_KEY).isNone := by
  intro items
  induction items with
  | nil => rfl
  | cons it rest ih =>
    cases hf : find_mapping_row it mapping_df MAPPING_PRODUCT_CODE_KEY with
    | none => simp [runItems, processItem, hf, ih, List.filter]
    | some row => simp [runItems, processItem, hf, ih, List.filter]

theorem runItems_length (mapping_df : List Row) (stock_df : List StockRow) :
    ∀ (items : List String),
      (runItems items mapping_df stock_df).1.length = items.length := by
  intro items
  induction items with
  | nil => rfl
  | cons it rest ih => simp [runItems, ih]

/-- C6: an item code with no exact or prefix catalog match contributes
exactly one entry, equal to the input code, to the missing-items list;
the batch still produces one slide per item; and such an item's slide is
built from the placeholder set in which only the product-code
placeholder carries the item code (label plus code) while every other
placeholder of the label table maps to the empty string (the RTS and MTO
placeholders carry their fixed header lines). -/
theorem claim_C6 :
    (∀ (items : List String) (mapping_df : List Row) (stock_df : List StockRow),
      (runItems items mapping_df stock_df).2
        = items.filter (fun it => (find_mapping_row it mapping_df MAPPING_PRODUCT_CODE_KEY).isNone) ∧
      (runItems items mapping_df stock_df).1.length = items.length) ∧
    (∀ (item_no : String) (mapping_df : List Row) (stock_df : List StockRow),
      find_mapping_row item_no mapping_df MAPPING_PRODUCT_CODE_KEY = none →
      processItem item_no mapping_df stock_df = (missingPlaceholderTexts item_no, true) ∧
      lookupPh (missingPlaceholderTexts item_no) "\x7b\x7bProduct code\x7d\x7d"
        = some ("Product Code: " ++ item_no) ∧
      (∀ p ∈ TEXT_PLACEHOLDERS_ORIG, p.1 ≠ "\x7b\x7bProduct code\x7d\x7d" →
        lookupPh (missingPlaceholderTexts item_no) p.1 = some "") ∧
      lookupPh (missingPlaceholderTexts item_no) "\x7b\x7bProduct RTS\x7d\x7d"
        = some "Product in stock versions:\n\n" ∧
      lookupPh (missingPlaceholderTexts item_no) "\x7b\x7bProduct MTO\x7d\x7d"
        = some "Avilable for made to order:\n\n") := by
  constructor
  · intro items mapping_df stock_df
    exact ⟨runItems_missing mapping_df stock_df items, runItems_length mapping_df stock_df items⟩
  · intro item_no mapping_df stock_df h
    refine ⟨by simp [processItem, h], rfl, ?_, rfl, rfl⟩
    intro p hp hne
    fin_cases hp <;> first | rfl | exact absurd rfl hne

theorem claim_C6_witness :
    lookupPh (missingPlaceholderTexts "ZZZ") "\x7b\x7bProduct code\x7d\x7d"
      = some "Product Code: ZZZ" :=
  (claim_C6.2 "ZZZ" [] [] (by decide)).2.1

/-- C7: text substitution works per paragraph on the concatenation of
all run texts — so a token split across runs still matches — writes the
fully substituted string into the first run, empties every other run
(hence at most one non-empty run remains), and the bracketed-token
matching tolerates internal whitespace around the name while staying
case-sensitive on the name itself. -/
theorem claim_C7 :
    (∀ (runs : List String) (placeholder_values : List (String × String)), runs ≠ [] →
      replace_text_placeholders_para runs placeholder_values
        = applyAll placeholder_values (String.join runs) :: (runs.drop 1).map (fun _ => "") ∧
      nonEmptyCount (replace_text_placeholders_para runs placeholder_values) ≤ 1) ∧
    replace_text_placeholders_para ["\x7b\x7bProduct ", "code\x7d\x7d"]
      [("\x7b\x7bProduct code\x7d\x7d", "X")] = ["X", ""] ∧
    substToken "Product code" "Y" "a \x7b\x7b  Product code \x7d\x7d b" = "a Y b" ∧
    substToken "Product code" "Z" "\x7b\x7bproduct code\x7d\x7d"
      = "\x7b\x7bproduct code\x7d\x7d" := by
  refine ⟨?_, by decide, by decide, by decide⟩
  intro runs pv hne
  match runs with
  | [] => exact absurd rfl hne
  | r :: rest =>
    refine ⟨rfl, ?_⟩
    show nonEmptyCount (applyAll pv (String.join (r :: rest)) :: rest.map fun _ => "") ≤ 1
    have hl : ((rest.map fun _ => "").filter fun s => !(s == "")) = [] := by
      rw [List.filter_eq_nil_iff]
      intro b hb
      rcases List.mem_map.mp hb with ⟨_, _, rfl⟩
      simp
    unfold nonEmptyCount
    rw [List.filter_cons]
    by_cases ha : (!(applyAll pv (String.join (r :: rest)) == "")) = true
    · rw [if_pos ha, hl]
      simp
    · rw [if_neg ha, hl]
      simp

theorem claim_C7_witness :
    nonEmptyCount (replace_text_placeholders_para ["abc"] []) ≤ 1 :=
  (claim_C7.1 ["abc"] [] (by decide)).2

theorem goImages_eq_find (shape : Shape) (iv : String → String) (res : String → Option Bitmap) :
    ∀ (l : List String),
      goImages shape iv res l =
        match l.find? (fun ph => pyContains (normalize_text shape.text) (normalize_text ph)) with
        | none => (shape, [])
        | some ph =>
          if iv ph = "" then (shape, [])
          else
            match res ph with
            | some bmp => ({shape with text := ""}, [mkPicture shape bmp])
            | none => (shape, []) := by
  intro l
  induction l with
  | nil => rfl
  | cons ph rest ih =>
    simp only [goImages, List.find?_cons]
    cases hc : pyContains (normalize_text shape.text) (normalize_text ph)
    · simp only [Bool.false_eq_true, if_false]
      exact ih
    · rw [if_pos rfl]

/-- C9: within one pass, a text-bearing shape is processed for at most
one image placeholder — the scan of the fixed token list stops at the
first token (in declaration order) whose normalized form occurs in the
shape's normalized text, so at most one picture is inserted per shape
and any later image tokens in the same text are left untouched. -/
theorem claim_C9 (shape : Shape) (iv : String → String) (res : String → Option Bitmap) :
    processShapeImages shape iv res =
      (if shape.has_text_frame then
        match IMAGE_PLACEHOLDERS_ORIG.find?
            (fun ph => pyContains (normalize_text shape.text) (normalize_text ph)) with
        | none => (shape, [])
        | some ph =>
          if iv ph = "" then (shape, [])
          else
            match res ph with
            | some bmp => ({shape with text := ""}, [mkPicture shape bmp])
            | none => (shape, [])
      else (shape, [])) ∧
    (processShapeImages shape iv res).2.length ≤ 1 := by
  have hgo := goImages_eq_find shape iv res IMAGE_PLACEHOLDERS_ORIG
  constructor
  · rw [processShapeImages]
    by_cases hf : shape.has_text_frame = true
    · rw [if_pos hf, if_pos hf, hgo]
    · rw [if_neg hf, if_neg hf]
  · rw [processShapeImages]
    by_cases hf : shape.has_text_frame = true
    · rw [if_pos hf, hgo]
      rcases hfind : IMAGE_PLACEHOLDERS_ORIG.find?
          (fun ph => pyContains (normalize_text shape.text) (normalize_text ph)) with _ | ph
      · simp
      · by_cases hiv : iv ph = ""
        · simp [hiv]
        · rcases hres : res ph with _ | bmp
          · simp [hiv, hres]
          · simp [hiv, hres]
    · rw [if_neg hf]
      simp

/-- C2 counterexample: a shape whose text holds an image token with a
blank URL and no resolved bitmap keeps its placeholder text — the pass
inserts nothing but does NOT clear the text, because the clearing
statement sits inside the successful-insert branch. -/
theorem claim_C2_counterexample :
    processShapeImages ⟨true, "\x7b\x7bProduct Packshot1\x7d\x7d", 100, 100, 0, 0⟩
      (fun _ => "") (fun _ => none)
      = (⟨true, "\x7b\x7bProduct Packshot1\x7d\x7d", 100, 100, 0, 0⟩, []) ∧
    ("\x7b\x7bProduct Packshot1\x7d\x7d" : String) ≠ "" :=
  ⟨by decide, by decide⟩

/-- C2 (amended): when the first image token found in a text-bearing
shape's text has a blank URL or no resolved bitmap, the pass inserts no
picture for that shape and leaves the shape — including its placeholder
text — unchanged (the text is not cleared). -/
theorem claim_C2_amended (shape : Shape) (iv : String → String) (res : String → Option Bitmap)
    (ph : String)
    (hfind : IMAGE_PLACEHOLDERS_ORIG.find?
      (fun p => pyContains (normalize_text shape.text) (normalize_text p)) = some ph)
    (hfail : iv ph = "" ∨ res ph = none) :
    processShapeImages shape iv res = (shape, []) := by
  rw [processShapeImages]
  by_cases hf : shape.has_text_frame = true
  · rw [if_pos hf, goImages_eq_find, hfind]
    rcases hfail with h | h
    · exact if_pos h
    · by_cases hiv : iv ph = ""
      · exact if_pos hiv
      · refine (if_neg hiv).trans ?_
        rw [h]
  · rw [if_neg hf]

theorem claim_C2_witness :
    processShapeImages ⟨true, "\x7b\x7bProduct Lifestyle2\x7d\x7d", 50, 50, 0, 0⟩
      (fun _ => "http-url") (fun _ => none)
      = (⟨true, "\x7b\x7bProduct Lifestyle2\x7d\x7d", 50, 50, 0, 0⟩, []) :=
  claim_C2_amended ⟨true, "\x7b\x7bProduct Lifestyle2\x7d\x7d", 50, 50, 0, 0⟩
    (fun _ => "http-url") (fun _ => none) "\x7b\x7bProduct Lifestyle2\x7d\x7d"
    (by decide) (Or.inr rfl)

/-- C10 counterexample: with a 4 by 2 bitmap in a 5 by 100 shape (the
shape strictly larger on both axes), the scale factor is 5/4 and the
inserted picture is 5 by 2 — its height is the integer truncation of
2 times 5/4, not the product itself, and it is not larger than the
bitmap's height, refuting the claim's exact-product and
strictly-larger consequences. -/
theorem claim_C10_counterexample :
    scaledSize 4 2 5 100 = (5, 2) ∧
    ((scaledSize 4 2 5 100).2 : ℚ) ≠ (2 : ℚ) * min ((5 : ℚ) / 4) ((100 : ℚ) / 2) ∧
    ¬ ((4 : ℤ) < (scaledSize 4 2 5 100).1 ∧ (2 : ℤ) < (scaledSize 4 2 5 100).2) := by
  have hmin : min ((5 : ℚ) / 4) ((100 : ℚ) / 2) = 5 / 4 := by
    rw [min_eq_left]
    norm_num
  have hs : scaledSize 4 2 5 100 = (5, 2) := by
    rw [scaledSize]
    push_cast
    rw [hmin]
    have h1 : (4 : ℚ) * (5 / 4) = ((5 : ℤ) : ℚ) := by norm_num
    have h2 : Int.floor ((2 : ℚ) * (5 / 4)) = 2 := by
      rw [show (2 : ℚ) * (5 / 4) = 5 / 2 from by norm_num, Int.floor_eq_iff]
      constructor <;> norm_num
    rw [h1, Int.floor_intCast, h2]
  refine ⟨hs, ?_, ?_⟩
  · rw [hs, hmin]
    norm_num
  · rw [hs]
    simp

/-- C10 (amended): the image-composition scale factor is not capped at
one: the inserted dimensions are the integer truncations of the bitmap
dimensions times min(shapeWidth/imageWidth, shapeHeight/imageHeight),
so a shape strictly larger than the bitmap on both axes gives a factor
above one and a picture at least as large as the bitmap on both axes —
e.g. a 100 by 100 bitmap in a 300 by 300 shape is upscaled to
300 by 300. -/
theorem claim_C10_amended :
    (∀ ow oh tw th : Nat, 0 < ow → 0 < oh → ow < tw → oh < th →
      1 < min ((tw : ℚ) / (ow : ℚ)) ((th : ℚ) / (oh : ℚ)) ∧
      (ow : ℤ) ≤ (scaledSize ow oh tw th).1 ∧ (oh : ℤ) ≤ (scaledSize ow oh tw th).2) ∧
    scaledSize 100 100 300 300 = (300, 300) := by
  constructor
  · intro ow oh tw th how hoh h1 h2
    have how' : (0 : ℚ) < ow := by exact_mod_cast how
    have hoh' : (0 : ℚ) < oh := by exact_mod_cast hoh
    have ha : 1 < (tw : ℚ) / (ow : ℚ) := by
      rw [lt_div_iff₀ how', one_mul]
      exact_mod_cast h1
    have hb : 1 < (th : ℚ) / (oh : ℚ) := by
      rw [lt_div_iff₀ hoh', one_mul]
      exact_mod_cast h2
    have hmin : 1 < min ((tw : ℚ) / (ow : ℚ)) ((th : ℚ) / (oh : ℚ)) := lt_min ha hb
    refine ⟨hmin, ?_, ?_⟩
    · show (ow : ℤ) ≤ Int.floor ((ow : ℚ) * min ((tw : ℚ) / (ow : ℚ)) ((th : ℚ) / (oh : ℚ)))
      rw [Int.le_floor]
      push_cast
      nlinarith
    · show (oh : ℤ) ≤ Int.floor ((oh : ℚ) * min ((tw : ℚ) / (ow : ℚ)) ((th : ℚ) / (oh : ℚ)))
      rw [Int.le_floor]
      push_cast
      nlinarith
  · rw [scaledSize]
    push_cast
    have h3 : ((300 : ℚ) / 100) = 3 := by norm_num
    rw [h3, min_self]
    rw [show (100 : ℚ) * 3 = ((300 : ℤ) : ℚ) from by norm_num, Int.floor_intCast]

theorem claim_C10_witness :
    (0 < 100 ∧ 100 < 300) ∧ (100 : ℤ) ≤ (scaledSize 100 100 300 300).1 :=
  ⟨⟨by decide, by decide⟩,
    (claim_C10_amended.1 100 100 300 300 (by decide) (by decide) (by decide) (by decide)).2.1⟩
